import Mathlib

/-!
Verification of the binding-inference and edit-transaction subsystem of the
zmk-studio keymap editor.  The definitions below are a shallow embedding of
the TypeScript source: behavior parameter metadata, the metadata inspector,
the behavior classifier (layer-tap / bluetooth role inference), the binding
codec, and the keymap edit operations (set-binding with undo capture, the
keymap importer, layer removal with selection clamping).

JS-level conventions used in the embedding:
  - `x || []` and `x ?? y` defaults are modelled with `Option` and `getD`;
  - a protobuf message field that may be absent is an `Option`;
  - JS truthiness of a message object (e.g. `p.layerId`) is `Option.isSome`;
  - `Record<number, T>` maps traversed with `Object.values` are `List T`.
-/

namespace ZmkStudio

/-- Which of the two positional binding parameters is meant. -/
inductive Param
  | param1
  | param2
deriving DecidableEq, Repr

/-- The HID-usage descriptor of a behavior parameter
(`hidUsage` with optional `keyboardMax` / `consumerMax` fields). -/
structure HidUsageDesc where
  keyboardMax : Option Nat := none
  consumerMax : Option Nat := none
deriving DecidableEq, Repr

/-- A bounded numeric range descriptor (`range` with `min` and `max`). -/
structure RangeDesc where
  min : Nat
  max : Nat
deriving DecidableEq, Repr

/-- One `BehaviorParameterValueDescription`: a name plus at most one of a
constant value, a range, a HID-usage descriptor, or a layer-id marker. -/
structure ParamDesc where
  name : String
  constant : Option Nat := none
  range : Option RangeDesc := none
  hidUsage : Option HidUsageDesc := none
  layerId : Option Unit := none
deriving DecidableEq, Repr

/-- One `BehaviorBindingParametersSet`: the descriptor lists for `param1`
and `param2` (an absent list in the wire format is the empty list). -/
structure ParamSet where
  param1 : List ParamDesc := []
  param2 : List ParamDesc := []
deriving DecidableEq, Repr

/-- A behavior (`GetBehaviorDetailsResponse`): id, display name, metadata. -/
structure Behavior where
  id : Nat
  displayName : String
  metadata : List ParamSet := []
deriving DecidableEq, Repr

/-- The descriptor list of a chosen parameter in a metadata set
(`param === "param1" ? set.param1 : set.param2`). -/
def paramDescs (s : ParamSet) : Param → List ParamDesc
  | .param1 => s.param1
  | .param2 => s.param2

/-- A concrete binding `{behaviorId, param1, param2}`. -/
structure Binding where
  behaviorId : Nat
  param1 : Nat
  param2 : Nat
deriving DecidableEq, Repr

/-- Read a binding's parameter by role (`param === "param1" ? b.param1 : b.param2`). -/
def Binding.get (b : Binding) : Param → Nat
  | .param1 => b.param1
  | .param2 => b.param2

/-- A keymap layer `{id, name, bindings}`. -/
structure Layer where
  id : Nat
  name : String
  bindings : List Binding
deriving DecidableEq, Repr

/-- The keymap: ordered layers plus the remaining layer budget. -/
structure Keymap where
  layers : List Layer
  availableLayers : Nat
deriving DecidableEq, Repr

/-! ### Metadata inspector (`KeyAssignPanel`) -/

/-- `hasLayerIdParam`: some metadata set has a layer-id descriptor on either
parameter. -/
def hasLayerIdParam (b : Behavior) : Bool :=
  b.metadata.any fun s => (s.param1 ++ s.param2).any fun p => p.layerId.isSome

/-- `hasHidUsageParam`: some metadata set has a HID-usage descriptor on
either parameter. -/
def hasHidUsageParam (b : Behavior) : Bool :=
  b.metadata.any fun s => (s.param1 ++ s.param2).any fun p => p.hidUsage.isSome

/-- `hasConstantParam`: some metadata set has a constant descriptor on either
parameter. -/
def hasConstantParam (b : Behavior) : Bool :=
  b.metadata.any fun s => (s.param1 ++ s.param2).any fun p => p.constant.isSome

/-- The result shape of `getHidUsageCaps`. -/
structure HidUsageCaps where
  keyboardMax : Nat
  consumerMax : Nat
deriving DecidableEq, Repr

/-- Build the caps record from a found HID-usage descriptor
(`keyboardMax || 0`, `consumerMax || 0`). -/
def capsOfDesc (h : HidUsageDesc) : HidUsageCaps :=
  { keyboardMax := h.keyboardMax.getD 0, consumerMax := h.consumerMax.getD 0 }

/-- `getHidUsageCaps`, first `KeyAssignPanel` copy: flat-maps only `set.param1`
across metadata sets and takes the first descriptor with `hidUsage` defined. -/
def getHidUsageCapsA (b : Behavior) : Option HidUsageCaps :=
  ((b.metadata.flatMap fun s => s.param1).find? fun p => p.hidUsage.isSome).bind
    fun p => p.hidUsage.map capsOfDesc

/-- `getHidUsageCaps`, second `KeyAssignPanel` copy: flat-maps
`[...param1, ...param2]` across metadata sets and takes the first descriptor
with `hidUsage` defined. -/
def getHidUsageCapsB (b : Behavior) : Option HidUsageCaps :=
  ((b.metadata.flatMap fun s => s.param1 ++ s.param2).find? fun p => p.hidUsage.isSome).bind
    fun p => p.hidUsage.map capsOfDesc

/-! ### Behavior classifier -/

/-- `getQuickLayerTapBehaviors`: behaviors having both a layer-id and a
HID-usage descriptor. -/
def getQuickLayerTapBehaviors (behaviors : List Behavior) : List Behavior :=
  behaviors.filter fun b => hasLayerIdParam b && hasHidUsageParam b

/-- The inferred layer-tap role mapping. -/
structure LayerTapOrder where
  layerParam : Param
  usageParam : Param
deriving DecidableEq, Repr

/-- Body of the `inferLayerTapParamOrder` loop for one metadata set. -/
def ltOrderOfSet (s : ParamSet) : Option LayerTapOrder :=
  let p1HasLayer := s.param1.any fun p => p.layerId.isSome
  let p2HasLayer := s.param2.any fun p => p.layerId.isSome
  let p1HasUsage := s.param1.any fun p => p.hidUsage.isSome
  let p2HasUsage := s.param2.any fun p => p.hidUsage.isSome
  if p1HasLayer && p2HasUsage then some ⟨.param1, .param2⟩
  else if p2HasLayer && p1HasUsage then some ⟨.param2, .param1⟩
  else none

/-- `inferLayerTapParamOrder`: scan metadata sets in order, returning at the
first set where one parameter has a layer-id descriptor and the other a
HID-usage descriptor; `none` when no set matches. -/
def inferLayerTapParamOrder (b : Behavior) : Option LayerTapOrder :=
  b.metadata.findSome? ltOrderOfSet

/-- The canonical bluetooth action labels (`BT_ACTION_LABELS`). -/
def BT_ACTION_LABELS : List String :=
  ["Next Profile", "Previous Profile", "Clear All Profiles",
   "Clear Selected Profile", "Select Profile", "Disconnect Profile"]

/-- `normalizeName`: lowercase and strip whitespace, underscores and hyphens. -/
def normalizeName (s : String) : String :=
  String.mk ((s.toList.map Char.toLower).filter fun c => !(c.isWhitespace || c = '_' || c = '-'))

/-- The normalized expected action-label set. -/
def btExpected : List String := BT_ACTION_LABELS.map normalizeName

/-- Number of constant descriptors in a list whose normalized name is one of
the expected bluetooth action labels (the per-parameter score). -/
def btScore (descs : List ParamDesc) : Nat :=
  ((descs.filter fun p => p.constant.isSome).filter
    fun c => btExpected.contains (normalizeName c.name)).length

/-- The flattened `param1` descriptors of all metadata sets
(`(behavior.metadata || []).flatMap((s) => s.param1 || [])`). -/
def flatP1 (b : Behavior) : List ParamDesc :=
  b.metadata.flatMap fun s => s.param1

/-- The flattened `param2` descriptors of all metadata sets. -/
def flatP2 (b : Behavior) : List ParamDesc :=
  b.metadata.flatMap fun s => s.param2

/-- `inferSingleConstantParam`: a parameter is the sole constant parameter
when it has a constant descriptor, the other parameter declares nothing at
all, and it has no usage/layer/range descriptor and no non-constant
descriptor of its own. -/
def inferSingleConstantParam (b : Behavior) : Option Param :=
  let p1 := flatP1 b
  let p2 := flatP2 b
  let p1HasConst := p1.any fun p => p.constant.isSome
  let p2HasConst := p2.any fun p => p.constant.isSome
  let p1HasOther :=
    (p1.any fun p => p.hidUsage.isSome || p.layerId.isSome || p.range.isSome)
      || (!p1.isEmpty && !p1HasConst)
  let p2HasOther :=
    (p2.any fun p => p.hidUsage.isSome || p.layerId.isSome || p.range.isSome)
      || (!p2.isEmpty && !p2HasConst)
  if p1HasConst && !p2HasConst && p2.isEmpty && !p1HasOther then some .param1
  else if p2HasConst && !p1HasConst && p1.isEmpty && !p2HasOther then some .param2
  else none

/-- The inferred bluetooth role mapping. -/
structure BtOrder where
  actionParam : Param
  profileParam : Option Param
deriving DecidableEq, Repr

/-- The other positional parameter. -/
def Param.other : Param → Param
  | .param1 => .param2
  | .param2 => .param1

/-- Body of the `inferBluetoothParamOrder` loop for one metadata set: skip
sets where neither parameter's constants overlap the expected labels,
otherwise pick the higher-scoring parameter (ties go to `param1`) as action
parameter, with the other parameter as profile parameter when it declares
any descriptor in this set. -/
def btOrderOfSet (s : ParamSet) : Option BtOrder :=
  let p1Score := btScore s.param1
  let p2Score := btScore s.param2
  if p1Score = 0 && p2Score = 0 then none
  else
    let actionParam := if p2Score ≤ p1Score then Param.param1 else Param.param2
    let otherP := actionParam.other
    let otherArr := paramDescs s otherP
    some ⟨actionParam, if otherArr.isEmpty then none else some otherP⟩

/-- `inferBluetoothParamOrder`: first metadata set with any label overlap
decides the mapping; with no overlap anywhere, fall back to
`inferSingleConstantParam` (profile parameter `none`). -/
def inferBluetoothParamOrder (b : Behavior) : Option BtOrder :=
  match b.metadata.findSome? btOrderOfSet with
  | some o => some o
  | none => (inferSingleConstantParam b).map fun p => ⟨p, none⟩

/-- Case-insensitive test for the substring `bluetooth` or `output`
(the `/bluetooth|output/i` regex). -/
def nameMatchesBtOrOutput (name : String) : Bool :=
  let n := name.toLower
  (n.splitOn "bluetooth").length > 1 || (n.splitOn "output").length > 1

/-- The base bluetooth-eligibility predicate: a constant descriptor and
neither a usage nor a layer-id descriptor. -/
def btEligible (b : Behavior) : Bool :=
  hasConstantParam b && !hasHidUsageParam b && !hasLayerIdParam b

/-- `getQuickBluetoothBehaviors`: bluetooth-eligible behaviors, narrowed to
those whose display name matches bluetooth/output when any do. -/
def getQuickBluetoothBehaviors (behaviors : List Behavior) : List Behavior :=
  let base := behaviors.filter btEligible
  let byName := base.filter fun b => nameMatchesBtOrOutput b.displayName
  if !byName.isEmpty then byName else base

/-! ### Binding codec -/

/-- Plain-key encoding (`onUsageClicked`, key branch):
`{behaviorId, param1: usage, param2: 0}`. -/
def encodeKey (behaviorId usage : Nat) : Binding :=
  { behaviorId := behaviorId, param1 := usage, param2 := 0 }

/-- Layer-tap encoding (`onUsageClicked`, layerTap branch): place the target
layer id and the chosen usage per the inferred role mapping. -/
def encodeLayerTap (behaviorId : Nat) (order : LayerTapOrder)
    (layerId usage : Nat) : Binding :=
  if order.layerParam = .param1 then
    { behaviorId := behaviorId, param1 := layerId, param2 := usage }
  else
    { behaviorId := behaviorId, param1 := usage, param2 := layerId }

/-- Layer-tap decoding of the layer (the decode effect:
`order.layerParam === "param1" ? selectedBinding.param1 : selectedBinding.param2`). -/
def decodeLayerTapLayer (order : LayerTapOrder) (b : Binding) : Nat :=
  if order.layerParam = .param1 then b.param1 else b.param2

/-- Layer-tap decoding of the usage (`activeLayerTapUsage`:
`order.usageParam === "param1" ? selectedBinding.param1 : selectedBinding.param2`). -/
def decodeLayerTapUsage (order : LayerTapOrder) (b : Binding) : Nat :=
  if order.usageParam = .param1 then b.param1 else b.param2

/-- `wantsProfile`: the chosen action name-matches Select Profile or Clear
Selected Profile. -/
def btWantsProfile (selectedActionName : Option String) : Bool :=
  selectedActionName = some "Select Profile"
    || selectedActionName = some "Clear Selected Profile"

/-- `resolvedProfileParam`: the inferred profile parameter, or the parameter
opposite the action parameter as fallback. -/
def btResolvedProfileParam (order : BtOrder) : Param :=
  order.profileParam.getD order.actionParam.other

/-- Bluetooth encoding (the bluetooth `KeyButton` `onClick` binding
computation): the clicked action constant goes into the action parameter;
the other parameter receives the effective profile only when the selected
action wants a profile and it is the resolved profile parameter, else 0.
`selectedActionName` and `effectiveProfile` are the values those render-time
variables hold at click time. -/
def encodeBluetoothClick (behaviorId : Nat) (order : BtOrder) (value : Nat)
    (selectedActionName : Option String) (effectiveProfile : Nat) : Binding :=
  let wants := btWantsProfile selectedActionName
  let rp := btResolvedProfileParam order
  { behaviorId := behaviorId
    param1 :=
      if order.actionParam = .param1 then value
      else if wants && rp = .param1 then effectiveProfile else 0
    param2 :=
      if order.actionParam = .param2 then value
      else if wants && rp = .param2 then effectiveProfile else 0 }

/-! ### Local keymap replica operations (`Keyboard.tsx`) -/

/-- In-place style update of the element at one index, other elements and
out-of-range indices untouched (the effect of an immer
`draft.xs[i] = ...` assignment at a valid index). -/
def listModify (f : α → α) : Nat → List α → List α
  | _, [] => []
  | 0, a :: as => f a :: as
  | n + 1, a :: as => a :: listModify f n as

/-- The replica mutation of a confirmed set-binding edit:
`draft.layers[layerIndex].bindings[keyPosition] = binding`. -/
def setBindingAt (km : Keymap) (layerIndex keyPosition : Nat) (b : Binding) : Keymap :=
  { km with
    layers := listModify
      (fun l => { l with bindings := l.bindings.set keyPosition b })
      layerIndex km.layers }

/-- The binding stored at a layer index / key position, when both exist. -/
def bindingAt (km : Keymap) (layerIndex keyPosition : Nat) : Option Binding :=
  km.layers[layerIndex]?.bind fun l => l.bindings[keyPosition]?

/-- The id of the layer at an index (`keymap.layers[layer].id`; the caller
only uses valid indices, out-of-range defaults to 0). -/
def layerIdAt (km : Keymap) (layerIndex : Nat) : Nat :=
  (km.layers[layerIndex]?.map Layer.id).getD 0

/-- The `setLayerBinding` response discriminant: `RESP_OK` or an error code. -/
inductive SetLayerBindingResponse
  | ok
  | err (code : Nat)
deriving DecidableEq, Repr

/-- A `setLayerBinding` request `{layerId, keyPosition, binding}`. -/
structure SetBindingReq where
  layerId : Nat
  keyPosition : Nat
  binding : Binding
deriving DecidableEq, Repr

/-- The forward request issued by `doUpdateBinding` for the captured layer
and key position. -/
def doUpdateBindingForwardReq (km : Keymap) (layerIndex keyPosition : Nat)
    (b : Binding) : SetBindingReq :=
  ⟨layerIdAt km layerIndex, keyPosition, b⟩

/-- The replica after `doUpdateBinding` processes the device response:
mutate the binding only on `SET_LAYER_BINDING_RESP_OK`, otherwise leave the
replica untouched. -/
def doUpdateBindingApply (km : Keymap) (layerIndex keyPosition : Nat)
    (b : Binding) (resp : SetLayerBindingResponse) : Keymap :=
  if resp = .ok then setBindingAt km layerIndex keyPosition b else km

/-- The request the captured inverse sends when run: the pre-edit binding
(`oldBinding`, read from the replica before the forward call) at the same
layer id and key position. -/
def doUpdateBindingInverseReq (km : Keymap) (layerIndex keyPosition : Nat) :
    SetBindingReq :=
  ⟨layerIdAt km layerIndex, keyPosition,
   (bindingAt km layerIndex keyPosition).getD ⟨0, 0, 0⟩⟩

/-! ### Keymap import (`importKeymap`) -/

/-- The device's verdict on a `setLayerBinding` request, by layer id, key
position and binding (`true` exactly when the response is `RESP_OK`). -/
def DevVerdict := Nat → Nat → Binding → Bool

/-- The key-position loop of `importKeymap` for one layer: walk the current
and imported binding lists in lockstep (stopping at the shorter), skip null
entries and bindings equal to the current one, send each differing binding
as an individual request, update the replica on success, and stop the
whole run at the first rejected request.  Returns the replica, the requests
issued in order, and whether the loop completed without rejection. -/
def importKeysGo (dev : DevVerdict) (layerIndex layerId : Nat) :
    List Binding → List (Option Binding) → Nat → Keymap →
    Keymap × List SetBindingReq × Bool
  | [], _, _, km => (km, [], true)
  | _ :: _, [], _, km => (km, [], true)
  | _ :: obs, none :: nbs, k, km => importKeysGo dev layerIndex layerId obs nbs (k + 1) km
  | ob :: obs, some b :: nbs, k, km =>
    if ob = b then importKeysGo dev layerIndex layerId obs nbs (k + 1) km
    else if dev layerId k b then
      let r := importKeysGo dev layerIndex layerId obs nbs (k + 1)
        (setBindingAt km layerIndex k b)
      (r.1, ⟨layerId, k, b⟩ :: r.2.1, r.2.2)
    else (km, [⟨layerId, k, b⟩], false)

/-- The layer loop of `importKeymap`: walk the device layers and the imported
layers in lockstep (stopping at the shorter), skip imported layers without a
bindings array, and run the key loop per layer against the snapshot of each
original layer, propagating the evolving replica and aborting the remaining
layers on the first rejection. -/
def importLayersGo (dev : DevVerdict) :
    List Layer → List (Option (List (Option Binding))) → Nat → Keymap →
    Keymap × List SetBindingReq × Bool
  | [], _, _, km => (km, [], true)
  | _ :: _, [], _, km => (km, [], true)
  | _ :: ols, none :: ils, l, km => importLayersGo dev ols ils (l + 1) km
  | ol :: ols, some nbs :: ils, l, km =>
    let r := importKeysGo dev l ol.id ol.bindings nbs 0 km
    if r.2.2 then
      let r2 := importLayersGo dev ols ils (l + 1) r.1
      (r2.1, r.2.1 ++ r2.2.1, r2.2.2)
    else (r.1, r.2.1, false)

/-- `importKeymap`: apply an imported document (per layer, an optional
bindings list whose entries may be null) against the current keymap through
the device. -/
def importKeymap (km : Keymap) (imported : List (Option (List (Option Binding))))
    (dev : DevVerdict) : Keymap × List SetBindingReq × Bool :=
  importLayersGo dev km.layers imported 0 km

/-! ### Specification-side import plan

The following definitions restate, directly from the specification's words,
which set-binding edits an import should perform: for each layer of the
overlapping prefix, for each key position of the overlapping prefix,
those imported bindings that actually differ from the current ones, in
traversal order.  They are used to characterize `importKeymap`. -/

/-- One planned set-binding edit of an import, with the layer index kept
alongside the request data so the edit can be replayed on the replica. -/
structure PlannedEdit where
  layerIndex : Nat
  layerId : Nat
  keyPosition : Nat
  binding : Binding
deriving DecidableEq, Repr

/-- The wire request of a planned edit. -/
def PlannedEdit.toReq (e : PlannedEdit) : SetBindingReq :=
  ⟨e.layerId, e.keyPosition, e.binding⟩

/-- Whether the device accepts a planned edit. -/
def editOk (dev : DevVerdict) (e : PlannedEdit) : Bool :=
  dev e.layerId e.keyPosition e.binding

/-- Replay one planned edit on the replica. -/
def applyEdit (km : Keymap) (e : PlannedEdit) : Keymap :=
  setBindingAt km e.layerIndex e.keyPosition e.binding

/-- Replay a list of planned edits on the replica, in order. -/
def applyEdits (km : Keymap) (es : List PlannedEdit) : Keymap :=
  es.foldl applyEdit km

/-- The planned edits of one layer: walk current and imported bindings in
lockstep up to the shorter list, keeping the differing non-null entries. -/
def planKeys (layerIndex layerId : Nat) :
    List Binding → List (Option Binding) → Nat → List PlannedEdit
  | [], _, _ => []
  | _ :: _, [], _ => []
  | _ :: obs, none :: nbs, k => planKeys layerIndex layerId obs nbs (k + 1)
  | ob :: obs, some b :: nbs, k =>
    if ob = b then planKeys layerIndex layerId obs nbs (k + 1)
    else ⟨layerIndex, layerId, k, b⟩ :: planKeys layerIndex layerId obs nbs (k + 1)

/-- The planned edits of an import: concatenate the per-layer plans over the
overlapping prefix of the layer lists, skipping imported layers without a
bindings array. -/
def planLayers :
    List Layer → List (Option (List (Option Binding))) → Nat → List PlannedEdit
  | [], _, _ => []
  | _ :: _, [], _ => []
  | _ :: ols, none :: ils, l => planLayers ols ils (l + 1)
  | ol :: ols, some nbs :: ils, l =>
    planKeys l ol.id ol.bindings nbs 0 ++ planLayers ols ils (l + 1)

/-- The full planned edit list of an import against a keymap. -/
def importPlan (km : Keymap) (imported : List (Option (List (Option Binding)))) :
    List PlannedEdit :=
  planLayers km.layers imported 0

/-! ### Layer removal and selection clamping -/

/-- The replica mutation of a confirmed layer removal:
`draft.layers.splice(layerIndex, 1); draft.availableLayers++`. -/
def removeLayerAt (km : Keymap) (layerIndex : Nat) : Keymap :=
  { layers := km.layers.eraseIdx layerIndex
    availableLayers := km.availableLayers + 1 }

/-- The selection update inside `doRemove`: when the removed index is the
last index of the pre-removal layer list, move the selection to the index
before it, otherwise leave the selection alone. -/
def doRemoveSelection (preCount layerIndex selected : Nat) : Nat :=
  if layerIndex = preCount - 1 then layerIndex - 1 else selected

/-- The clamp effect: whenever the selection exceeds the last valid index of
the current layer list, pull it back to that last index. -/
def clampSelection (layerCount selected : Nat) : Nat :=
  if layerCount - 1 < selected then layerCount - 1 else selected

/-- The selected-layer index observed after a confirmed removal, once the
clamp effect has run against the shrunken layer list. -/
def selectionAfterRemove (km : Keymap) (layerIndex selected : Nat) : Nat :=
  clampSelection (removeLayerAt km layerIndex).layers.length
    (doRemoveSelection km.layers.length layerIndex selected)

/-! ### Letter palette (`letterUsageId` and the main rows) -/

/-- `letterUsageId`: uppercase the character, then map code points 65..90 to
HID keyboard-page ids 4..29; anything else throws (modelled as `none`). -/
def letterUsageId (letter : Char) : Option Nat :=
  let up := letter.toUpper
  let code := up.toNat
  if code < 65 || 90 < code then none else some (4 + (code - 65))

/-- The letter strings the `paletteRows` main-category rows split and feed to
`letterUsageId`. -/
def mainRowLetters : List (List Char) :=
  ["QWERTYUIOP".toList, "ASDFGHJKL".toList, "ZXCVBNM".toList]

/-! ### Helper lemmas -/

theorem listModify_getElem?_self (f : α → α) (l : List α) (i : Nat) :
    (listModify f i l)[i]? = l[i]?.map f := by
  induction l generalizing i with
  | nil => simp [listModify]
  | cons a as ih =>
    cases i with
    | zero => simp [listModify]
    | succ n => simpa [listModify] using ih n

theorem listModify_getElem?_ne (f : α → α) (l : List α) (i j : Nat) (h : i ≠ j) :
    (listModify f i l)[j]? = l[j]? := by
  induction l generalizing i j with
  | nil => simp [listModify]
  | cons a as ih =>
    cases i with
    | zero =>
      cases j with
      | zero => exact absurd rfl h
      | succ m => simp [listModify]
    | succ n =>
      cases j with
      | zero => simp [listModify]
      | succ m => simpa [listModify] using ih n m (by omega)

theorem bindingAt_setBindingAt_self (km : Keymap) (i k : Nat) (b ob : Binding)
    (h : bindingAt km i k = some ob) :
    bindingAt (setBindingAt km i k b) i k = some b := by
  unfold bindingAt setBindingAt at *
  rcases hL : km.layers[i]? with _ | L
  · simp [hL] at h
  · simp only [hL, Option.some_bind] at h
    have hk : k < L.bindings.length := by
      rcases Nat.lt_or_ge k L.bindings.length with hk | hk
      · exact hk
      · rw [List.getElem?_eq_none hk] at h
        exact Option.noConfusion h
    simp [listModify_getElem?_self, hL, List.getElem?_set_self hk]

theorem bindingAt_setBindingAt_ne (km : Keymap) (i k : Nat) (b : Binding)
    (i' k' : Nat) (h : i' ≠ i ∨ k' ≠ k) :
    bindingAt (setBindingAt km i k b) i' k' = bindingAt km i' k' := by
  unfold bindingAt setBindingAt
  by_cases hi : i = i'
  · subst hi
    have hk : k' ≠ k := by tauto
    rw [listModify_getElem?_self]
    rcases hL : km.layers[i]? with _ | L
    · simp
    · simp [List.getElem?_set_ne (by omega : k ≠ k')]
  · rw [listModify_getElem?_ne _ _ _ _ hi]

theorem findSome?_imp {α : Type u} {β : Type v} {f : α → Option β} {P : β → Prop}
    (hf : ∀ a b, f a = some b → P b) :
    ∀ {l : List α} {b : β}, l.findSome? f = some b → P b := by
  intro l
  induction l with
  | nil => intro b h; simp [List.findSome?] at h
  | cons a as ih =>
    intro b h
    cases hfa : f a with
    | some c =>
      rw [List.findSome?_cons, hfa] at h
      exact hf a b (hfa.trans h)
    | none =>
      rw [List.findSome?_cons, hfa] at h
      exact ih h

theorem ltOrderOfSet_cases (s : ParamSet) (o : LayerTapOrder)
    (h : ltOrderOfSet s = some o) :
    o = ⟨.param1, .param2⟩ ∨ o = ⟨.param2, .param1⟩ := by
  unfold ltOrderOfSet at h
  simp only [] at h
  split_ifs at h <;> simp_all

theorem inferLayerTapParamOrder_cases (b : Behavior) (o : LayerTapOrder)
    (h : inferLayerTapParamOrder b = some o) :
    o = ⟨.param1, .param2⟩ ∨ o = ⟨.param2, .param1⟩ :=
  findSome?_imp ltOrderOfSet_cases h

/-! ### Example data used by witnesses and counterexamples -/

/-- A layer-id-only descriptor. -/
def layerDesc : ParamDesc := { name := "Layer", layerId := some () }

/-- A HID-usage descriptor (keyboard page up to 0xA4, no consumer page). -/
def usageDesc : ParamDesc := { name := "Usage", hidUsage := some ⟨some 164, none⟩ }

/-- A small two-key keymap with one layer. -/
def exKm : Keymap :=
  { layers := [{ id := 0, name := "Base", bindings := [⟨1, 2, 3⟩, ⟨4, 5, 6⟩] }]
    availableLayers := 2 }

/-- A two-layer keymap. -/
def exKm2 : Keymap :=
  { layers :=
      [{ id := 0, name := "Base", bindings := [⟨1, 2, 3⟩] },
       { id := 1, name := "Fn", bindings := [⟨4, 5, 6⟩] }]
    availableLayers := 1 }

/-- A layer-tap behavior whose only metadata set has a layer-id descriptor
on param1 and a usage descriptor on param2. -/
def ltBeh : Behavior :=
  { id := 10, displayName := "Layer-Tap"
    metadata := [{ param1 := [layerDesc], param2 := [usageDesc] }] }

/-! ### Claim theorems -/

/-- C1: a set-binding edit through `doUpdateBinding` mutates the local
replica (the binding at the captured layer/key position becomes the new
tuple, every other position untouched) exactly when the device answers
`SET_LAYER_BINDING_RESP_OK`; on any other response the replica is exactly
the pre-edit value; and the captured inverse sends the pre-edit
`{behaviorId, param1, param2}` tuple read from the replica before the
forward call. -/
theorem doUpdateBinding_correct (km : Keymap) (layerIndex keyPosition : Nat)
    (b ob : Binding) (resp : SetLayerBindingResponse)
    (h : bindingAt km layerIndex keyPosition = some ob) :
    (resp = .ok →
      bindingAt (doUpdateBindingApply km layerIndex keyPosition b resp)
          layerIndex keyPosition = some b
        ∧ ∀ l' k', l' ≠ layerIndex ∨ k' ≠ keyPosition →
            bindingAt (doUpdateBindingApply km layerIndex keyPosition b resp) l' k'
              = bindingAt km l' k')
    ∧ (resp ≠ .ok → doUpdateBindingApply km layerIndex keyPosition b resp = km)
    ∧ doUpdateBindingInverseReq km layerIndex keyPosition
        = ⟨layerIdAt km layerIndex, keyPosition, ob⟩ := by
  refine ⟨fun hr => ?_, fun hr => ?_, ?_⟩
  · subst hr
    unfold doUpdateBindingApply
    exact ⟨bindingAt_setBindingAt_self km _ _ b ob h,
      fun l' k' hne => bindingAt_setBindingAt_ne km _ _ b l' k' hne⟩
  · unfold doUpdateBindingApply
    simp [hr]
  · unfold doUpdateBindingInverseReq
    rw [h]
    rfl

/-- C1 witness at a concrete keymap, position and response. -/
theorem doUpdateBinding_correct_witness :
    bindingAt exKm 0 1 = some ⟨4, 5, 6⟩
    ∧ ((SetLayerBindingResponse.ok = .ok →
        bindingAt (doUpdateBindingApply exKm 0 1 ⟨7, 8, 9⟩ .ok) 0 1 = some ⟨7, 8, 9⟩
          ∧ ∀ l' k', l' ≠ 0 ∨ k' ≠ 1 →
              bindingAt (doUpdateBindingApply exKm 0 1 ⟨7, 8, 9⟩ .ok) l' k'
                = bindingAt exKm l' k')
      ∧ (SetLayerBindingResponse.ok ≠ .ok →
          doUpdateBindingApply exKm 0 1 ⟨7, 8, 9⟩ .ok = exKm)
      ∧ doUpdateBindingInverseReq exKm 0 1 = ⟨layerIdAt exKm 0, 1, ⟨4, 5, 6⟩⟩) :=
  ⟨rfl, doUpdateBinding_correct exKm 0 1 ⟨7, 8, 9⟩ ⟨4, 5, 6⟩ .ok rfl⟩

/-- C2: for a behavior with a decidable layer-tap role mapping, encoding an
existing layer id and a usage and then decoding the resulting binding (layer
from the mapping's layer parameter, usage from its usage parameter) yields
back exactly the layer id and the usage. -/
theorem layerTap_roundtrip (beh : Behavior) (order : LayerTapOrder)
    (layers : List Layer) (L U : Nat)
    (horder : inferLayerTapParamOrder beh = some order)
    (hL : layers.any (fun l => l.id = L) = true) :
    decodeLayerTapLayer order (encodeLayerTap beh.id order L U) = L
    ∧ decodeLayerTapUsage order (encodeLayerTap beh.id order L U) = U := by
  rcases inferLayerTapParamOrder_cases beh order horder with h | h <;> subst h <;>
    simp [encodeLayerTap, decodeLayerTapLayer, decodeLayerTapUsage]

/-- C2 witness: round-trip layer 2 with usage 4 through `ltBeh`. -/
theorem layerTap_roundtrip_witness :
    inferLayerTapParamOrder ltBeh = some ⟨.param1, .param2⟩
    ∧ ([(⟨2, "L2", []⟩ : Layer)].any (fun l => l.id = 2) = true)
    ∧ (decodeLayerTapLayer ⟨.param1, .param2⟩ (encodeLayerTap ltBeh.id ⟨.param1, .param2⟩ 2 4) = 2
      ∧ decodeLayerTapUsage ⟨.param1, .param2⟩ (encodeLayerTap ltBeh.id ⟨.param1, .param2⟩ 2 4) = 4) :=
  ⟨rfl, rfl, layerTap_roundtrip ltBeh ⟨.param1, .param2⟩ [⟨2, "L2", []⟩] 2 4 rfl rfl⟩

/-- C7: plain-key encoding produces `{behaviorId, param1: usage, param2: 0}`
for every usage, and layer-tap encoding places the layer id into the role
mapping's layer parameter and the usage into its usage parameter, for both
orientations a behavior's inferred mapping can take. -/
theorem encode_key_layerTap (beh : Behavior) (order : LayerTapOrder)
    (bid u L U : Nat) (horder : inferLayerTapParamOrder beh = some order) :
    encodeKey bid u = ⟨bid, u, 0⟩
    ∧ (encodeLayerTap beh.id order L U).behaviorId = beh.id
    ∧ (encodeLayerTap beh.id order L U).get order.layerParam = L
    ∧ (encodeLayerTap beh.id order L U).get order.usageParam = U := by
  refine ⟨rfl, ?_, ?_, ?_⟩ <;>
    rcases inferLayerTapParamOrder_cases beh order horder with h | h <;> subst h <;>
      simp [encodeLayerTap, Binding.get]

/-- C7 witness: encode at `ltBeh` with its inferred mapping. -/
theorem encode_key_layerTap_witness :
    inferLayerTapParamOrder ltBeh = some ⟨.param1, .param2⟩
    ∧ (encodeKey 3 11 = ⟨3, 11, 0⟩
      ∧ (encodeLayerTap ltBeh.id ⟨.param1, .param2⟩ 2 4).behaviorId = ltBeh.id
      ∧ (encodeLayerTap ltBeh.id ⟨.param1, .param2⟩ 2 4).get Param.param1 = 2
      ∧ (encodeLayerTap ltBeh.id ⟨.param1, .param2⟩ 2 4).get Param.param2 = 4) :=
  ⟨rfl, encode_key_layerTap ltBeh ⟨.param1, .param2⟩ 3 11 2 4 rfl⟩

/-- A metadata set of a parameter has a layer-id descriptor. -/
def SetHasLayer (s : ParamSet) (p : Param) : Prop :=
  ∃ d ∈ paramDescs s p, d.layerId.isSome = true

/-- A metadata set of a parameter has a HID-usage descriptor. -/
def SetHasUsage (s : ParamSet) (p : Param) : Prop :=
  ∃ d ∈ paramDescs s p, d.hidUsage.isSome = true

theorem ltOrderOfSet_eq_none_iff (s : ParamSet) :
    ltOrderOfSet s = none ↔
      ¬(SetHasLayer s .param1 ∧ SetHasUsage s .param2)
      ∧ ¬(SetHasLayer s .param2 ∧ SetHasUsage s .param1) := by
  have e1 : ((s.param1.any fun p => p.layerId.isSome) = true) ↔ SetHasLayer s .param1 := by
    simp [SetHasLayer, paramDescs, List.any_eq_true]
  have e2 : ((s.param2.any fun p => p.layerId.isSome) = true) ↔ SetHasLayer s .param2 := by
    simp [SetHasLayer, paramDescs, List.any_eq_true]
  have e3 : ((s.param1.any fun p => p.hidUsage.isSome) = true) ↔ SetHasUsage s .param1 := by
    simp [SetHasUsage, paramDescs, List.any_eq_true]
  have e4 : ((s.param2.any fun p => p.hidUsage.isSome) = true) ↔ SetHasUsage s .param2 := by
    simp [SetHasUsage, paramDescs, List.any_eq_true]
  unfold ltOrderOfSet
  simp only []
  split_ifs with h1 h2
  · rw [Bool.and_eq_true] at h1
    constructor
    · intro h
      exact absurd h (by simp)
    · rintro ⟨hA, _⟩
      exact absurd ⟨e1.1 h1.1, e4.1 h1.2⟩ hA
  · rw [Bool.and_eq_true] at h2
    constructor
    · intro h
      exact absurd h (by simp)
    · rintro ⟨_, hB⟩
      exact absurd ⟨e2.1 h2.1, e3.1 h2.2⟩ hB
  · rw [Bool.and_eq_true] at h1 h2
    constructor
    · intro _
      exact ⟨fun hc => h1 ⟨e1.2 hc.1, e4.2 hc.2⟩, fun hc => h2 ⟨e2.2 hc.1, e3.2 hc.2⟩⟩
    · intro _
      rfl

theorem ltOrderOfSet_some_char (s : ParamSet) (o : LayerTapOrder)
    (h : ltOrderOfSet s = some o) :
    (o = ⟨.param1, .param2⟩ ∧ SetHasLayer s .param1 ∧ SetHasUsage s .param2)
    ∨ (o = ⟨.param2, .param1⟩ ∧ SetHasLayer s .param2 ∧ SetHasUsage s .param1) := by
  unfold ltOrderOfSet at h
  simp only [] at h
  split_ifs at h with h1 h2 <;>
    simp_all [SetHasLayer, SetHasUsage, paramDescs, List.any_eq_true]

/-- A behavior that is in the layer-tap group yet has no inferable role
mapping: its first metadata set offers only a layer id on param1 and its
second only a usage on param1. -/
def exC3 : Behavior :=
  { id := 11, displayName := "LT2"
    metadata := [{ param1 := [layerDesc], param2 := [] },
                 { param1 := [usageDesc], param2 := [] }] }

/-- C3 counterexample: `exC3` has both a layer-id and a HID-usage
descriptor, no metadata set cleanly separates the two
(`inferLayerTapParamOrder` returns null), and yet the behavior is NOT
excluded from the layer-tap group: `getQuickLayerTapBehaviors` keeps it. -/
theorem layerTap_claim_counterexample :
    inferLayerTapParamOrder exC3 = none
    ∧ hasLayerIdParam exC3 = true
    ∧ hasHidUsageParam exC3 = true
    ∧ getQuickLayerTapBehaviors [exC3] = [exC3] := by
  refine ⟨rfl, rfl, rfl, ?_⟩
  decide

/-- C3 (amended): a behavior is in the layer-tap group exactly when it has
both a layer-id descriptor and a HID-usage descriptor somewhere in its
metadata, whether or not a role mapping is inferable; the role mapping scan
returns null exactly when no metadata set has a layer-id descriptor on one
parameter and a usage descriptor on the other (the parameters need not be
layer-id-only or usage-only); when a mapping is returned it assigns the
layer role to a parameter with a layer-id descriptor and the usage role to
the opposite parameter with a usage descriptor in some common set. -/
theorem layerTap_group_and_mapping (behaviors : List Behavior) (b : Behavior) :
    (b ∈ getQuickLayerTapBehaviors behaviors ↔
      b ∈ behaviors ∧ hasLayerIdParam b = true ∧ hasHidUsageParam b = true)
    ∧ (inferLayerTapParamOrder b = none ↔
        ∀ s ∈ b.metadata,
          ¬(SetHasLayer s .param1 ∧ SetHasUsage s .param2)
          ∧ ¬(SetHasLayer s .param2 ∧ SetHasUsage s .param1))
    ∧ (∀ o, inferLayerTapParamOrder b = some o →
        (o = ⟨.param1, .param2⟩
          ∧ ∃ s ∈ b.metadata, SetHasLayer s .param1 ∧ SetHasUsage s .param2)
        ∨ (o = ⟨.param2, .param1⟩
          ∧ ∃ s ∈ b.metadata, SetHasLayer s .param2 ∧ SetHasUsage s .param1)) := by
  refine ⟨?_, ?_, ?_⟩
  · unfold getQuickLayerTapBehaviors
    rw [List.mem_filter, Bool.and_eq_true]
  · unfold inferLayerTapParamOrder
    rw [List.findSome?_eq_none_iff]
    constructor
    · intro h s hs
      exact (ltOrderOfSet_eq_none_iff s).1 (h s hs)
    · intro h s hs
      exact (ltOrderOfSet_eq_none_iff s).2 (h s hs)
  · intro o h
    unfold inferLayerTapParamOrder at h
    have key : ∀ l : List ParamSet, l.findSome? ltOrderOfSet = some o →
        ∃ s ∈ l, ltOrderOfSet s = some o := by
      intro l
      induction l with
      | nil =>
        intro h'
        simp [List.findSome?] at h'
      | cons s ss ih =>
        intro h'
        cases hs : ltOrderOfSet s with
        | some o' =>
          rw [List.findSome?_cons, hs] at h'
          exact ⟨s, List.mem_cons_self s ss, hs.trans h'⟩
        | none =>
          rw [List.findSome?_cons, hs] at h'
          obtain ⟨t, ht, hto⟩ := ih h'
          exact ⟨t, List.mem_cons_of_mem s ht, hto⟩
    obtain ⟨s, hs, hso⟩ := key b.metadata h
    rcases ltOrderOfSet_some_char s o hso with ⟨ho, h1, h2⟩ | ⟨ho, h1, h2⟩
    · exact Or.inl ⟨ho, s, hs, h1, h2⟩
    · exact Or.inr ⟨ho, s, hs, h1, h2⟩

/-- C3 witness: the amended mapping rule at `ltBeh`. -/
theorem layerTap_group_and_mapping_witness :
    inferLayerTapParamOrder ltBeh = some ⟨.param1, .param2⟩
    ∧ ((⟨.param1, .param2⟩ = (⟨.param1, .param2⟩ : LayerTapOrder)
        ∧ ∃ s ∈ ltBeh.metadata, SetHasLayer s .param1 ∧ SetHasUsage s .param2)
      ∨ (⟨.param1, .param2⟩ = (⟨.param2, .param1⟩ : LayerTapOrder)
        ∧ ∃ s ∈ ltBeh.metadata, SetHasLayer s .param2 ∧ SetHasUsage s .param1)) :=
  ⟨rfl, (layerTap_group_and_mapping [ltBeh] ltBeh).2.2 ⟨.param1, .param2⟩ rfl⟩

theorem find?_eq_head?_filter (p : α → Bool) (l : List α) :
    l.find? p = (l.filter p).head? := by
  induction l with
  | nil => rfl
  | cons a as ih =>
    rw [List.find?_cons, List.filter_cons]
    by_cases h : p a
    · rw [h]
      rfl
    · rw [Bool.not_eq_true] at h
      rw [h, if_neg (by simp [h]), ih]

/-- A behavior whose only usage descriptor sits on param2. -/
def exC6 : Behavior :=
  { id := 12, displayName := "KP", metadata := [{ param1 := [], param2 := [usageDesc] }] }

/-- C6 counterexample: the first `getHidUsageCaps` copy scans only `param1`
descriptors, so on a behavior whose usage descriptor sits on `param2` it
returns null even though a metadata set declares a HID-usage descriptor on
either parameter. -/
theorem hidUsageCaps_claim_counterexample :
    getHidUsageCapsA exC6 = none ∧ hasHidUsageParam exC6 = true :=
  ⟨rfl, rfl⟩

/-- C6 (amended): the first `getHidUsageCaps` copy inspects only `param1`
descriptors across metadata sets and is null exactly when none of them has a
HID-usage descriptor; the second copy inspects both parameters and is null
exactly when `hasUsageParam` is false (including empty metadata); when the
second copy succeeds it exposes the keyboard-page and consumer-page maxima
(each defaulting to 0) of the first HID-usage descriptor in scan order. -/
theorem getHidUsageCaps_spec (b : Behavior) :
    (getHidUsageCapsA b = none ↔ ∀ s ∈ b.metadata, ∀ d ∈ s.param1, d.hidUsage = none)
    ∧ (getHidUsageCapsB b = none ↔ hasHidUsageParam b = false)
    ∧ (∀ d ds,
        ((b.metadata.flatMap fun s => s.param1 ++ s.param2).filter
            fun p => p.hidUsage.isSome) = d :: ds →
        getHidUsageCapsB b = d.hidUsage.map capsOfDesc) := by
  refine ⟨?_, ?_, ?_⟩
  · unfold getHidUsageCapsA
    cases hf : (b.metadata.flatMap fun s => s.param1).find? fun p => p.hidUsage.isSome with
    | none =>
      rw [List.find?_eq_none] at hf
      simp only [Option.none_bind, true_iff]
      intro s hs d hd
      have := hf d (List.mem_flatMap.2 ⟨s, hs, hd⟩)
      simpa using this
    | some d =>
      have hd := List.find?_some hf
      have hmem := List.mem_of_find?_eq_some hf
      rcases hu : d.hidUsage with _ | u
      · rw [hu] at hd
        simp at hd
      · simp only [Option.some_bind, hu, Option.map_some]
        constructor
        · intro h
          exact Option.noConfusion h
        · intro h
          obtain ⟨s, hs, hds⟩ := List.mem_flatMap.1 hmem
          have := h s hs d hds
          rw [this] at hu
          exact Option.noConfusion hu
  · unfold getHidUsageCapsB
    cases hf : (b.metadata.flatMap fun s => s.param1 ++ s.param2).find?
        fun p => p.hidUsage.isSome with
    | none =>
      rw [List.find?_eq_none] at hf
      simp only [Option.none_bind, true_iff]
      rw [← Bool.not_eq_true]
      intro hany
      unfold hasHidUsageParam at hany
      rw [List.any_eq_true] at hany
      obtain ⟨s, hs, hd⟩ := hany
      rw [List.any_eq_true] at hd
      obtain ⟨d, hds, hdu⟩ := hd
      exact hf d (List.mem_flatMap.2 ⟨s, hs, hds⟩) hdu
    | some d =>
      have hd := List.find?_some hf
      have hmem := List.mem_of_find?_eq_some hf
      rcases hu : d.hidUsage with _ | u
      · rw [hu] at hd
        simp at hd
      · simp only [Option.some_bind, hu, Option.map_some]
        constructor
        · intro h
          exact Option.noConfusion h
        · intro h
          obtain ⟨s, hs, hds⟩ := List.mem_flatMap.1 hmem
          unfold hasHidUsageParam at h
          rw [← Bool.not_eq_true, List.any_eq_true] at h
          exact absurd ⟨s, hs, List.any_eq_true.2 ⟨d, hds, hd⟩⟩ h
  · intro d ds hfil
    unfold getHidUsageCapsB
    rw [find?_eq_head?_filter, hfil]
    rfl

/-- C6 witness: the second copy reads the first usage descriptor. -/
theorem getHidUsageCaps_spec_witness :
    ((exC6.metadata.flatMap fun s => s.param1 ++ s.param2).filter
        fun p => p.hidUsage.isSome) = usageDesc :: []
    ∧ getHidUsageCapsB exC6 = usageDesc.hidUsage.map capsOfDesc :=
  ⟨rfl, (getHidUsageCaps_spec exC6).2.2 usageDesc [] rfl⟩

/-- C9: after a confirmed removal from a keymap with at least two layers,
the selected-layer index (after `doRemove`'s own adjustment and the clamp
effect) is within the valid range of the shrunken layer list, and removing
the layer at the last index moves the selection to the new last index. -/
theorem selection_clamped_after_remove (km : Keymap) (i s : Nat)
    (h2 : 2 ≤ km.layers.length) (hi : i < km.layers.length)
    (hs : s < km.layers.length) :
    selectionAfterRemove km i s < (removeLayerAt km i).layers.length
    ∧ (i = km.layers.length - 1 →
        selectionAfterRemove km i s = (removeLayerAt km i).layers.length - 1) := by
  have hlen : (removeLayerAt km i).layers.length = km.layers.length - 1 := by
    unfold removeLayerAt
    simpa using List.length_eraseIdx_of_lt hi
  unfold selectionAfterRemove clampSelection doRemoveSelection
  rw [hlen]
  constructor
  · split_ifs <;> omega
  · intro he
    split_ifs <;> omega

/-- C9 witness: remove the selected last layer of a two-layer keymap. -/
theorem selection_clamped_after_remove_witness :
    2 ≤ exKm2.layers.length ∧ 1 < exKm2.layers.length ∧ 1 < exKm2.layers.length
    ∧ (selectionAfterRemove exKm2 1 1 < (removeLayerAt exKm2 1).layers.length
      ∧ (1 = exKm2.layers.length - 1 →
          selectionAfterRemove exKm2 1 1 = (removeLayerAt exKm2 1).layers.length - 1)) :=
  ⟨by decide, by decide, by decide,
    selection_clamped_after_remove exKm2 1 1 (by decide) (by decide) (by decide)⟩

/-- C10 counterexample: `letterUsageId` does not throw on every input other
than an uppercase A–Z letter: the lowercase letter `q` is first uppercased
and maps to id 20 instead of throwing. -/
theorem letterUsageId_claim_counterexample :
    letterUsageId (Char.ofNat 113) = some 20 ∧ (Char.ofNat 113).isUpper = false := by
  constructor <;> decide

/-- C10 (amended): `letterUsageId` maps every character whose uppercased
form lies in A–Z to `4 + (upper − 65)` and throws (`none`) exactly on the
rest; every character of the main palette rows (the literal strings
QWERTYUIOP, ASDFGHJKL, ZXCVBNM) maps successfully, so the throwing branch
is unreachable during palette construction. -/
theorem letterUsageId_spec (c : Char) :
    (65 ≤ c.toUpper.toNat → c.toUpper.toNat ≤ 90 →
      letterUsageId c = some (4 + (c.toUpper.toNat - 65)))
    ∧ (c.toUpper.toNat < 65 ∨ 90 < c.toUpper.toNat → letterUsageId c = none)
    ∧ (∀ row ∈ mainRowLetters, ∀ ch ∈ row, (letterUsageId ch).isSome = true) := by
  refine ⟨fun h1 h2 => ?_, fun h => ?_, by decide⟩
  · unfold letterUsageId
    simp only []
    split_ifs with hc
    · simp at hc
      omega
    · rfl
  · unfold letterUsageId
    simp only []
    split_ifs with hc
    · rfl
    · simp at hc
      omega

/-- C10 witness: the letter Q maps to keyboard-page id 20. -/
theorem letterUsageId_spec_witness :
    65 ≤ (Char.ofNat 81).toUpper.toNat ∧ (Char.ofNat 81).toUpper.toNat ≤ 90
    ∧ letterUsageId (Char.ofNat 81) = some (4 + ((Char.ofNat 81).toUpper.toNat - 65)) :=
  ⟨by decide, by decide, (letterUsageId_spec (Char.ofNat 81)).1 (by decide) (by decide)⟩

/-! ### Bluetooth role inference (C4) -/

theorem findSome?_append_none {α : Type u} {β : Type v} {f : α → Option β}
    {l1 l2 : List α} (h : ∀ a ∈ l1, f a = none) :
    (l1 ++ l2).findSome? f = l2.findSome? f := by
  induction l1 with
  | nil => rfl
  | cons a as ih =>
    rw [List.cons_append, List.findSome?_cons, h a (by simp)]
    exact ih fun x hx => h x (by simp [hx])

theorem btOrderOfSet_eq_none_iff (s : ParamSet) :
    btOrderOfSet s = none ↔ btScore s.param1 = 0 ∧ btScore s.param2 = 0 := by
  unfold btOrderOfSet
  simp only []
  split_ifs with h
  · simp only [Bool.and_eq_true, decide_eq_true_eq] at h
    simp [h]
  · simp only [Bool.and_eq_true, decide_eq_true_eq] at h
    constructor
    · intro hc
      exact absurd hc (by simp)
    · intro hc
      exact absurd hc h

/-- Restated from the spec's words: the action parameter of a metadata set
is the one with the higher action-label overlap, ties going to `param1`. -/
def btActionOf (s : ParamSet) : Param :=
  if btScore s.param2 ≤ btScore s.param1 then .param1 else .param2

/-- Restated from the spec's words: the profile parameter is the parameter
opposite the action parameter, provided it declares any descriptor in the
deciding set. -/
def btProfileOf (s : ParamSet) : Option Param :=
  if (paramDescs s (btActionOf s).other).isEmpty then none
  else some (btActionOf s).other

theorem btOrderOfSet_explicit (s : ParamSet)
    (h : ¬(btScore s.param1 = 0 ∧ btScore s.param2 = 0)) :
    btOrderOfSet s = some ⟨btActionOf s, btProfileOf s⟩ := by
  unfold btOrderOfSet
  simp only []
  rw [if_neg (by simpa using h)]
  rfl

/-- A bluetooth-eligible behavior with no action-label overlap whose
`param1` carries a constant plus a range descriptor and whose `param2` is
entirely empty. -/
def exC4 : Behavior :=
  { id := 14, displayName := "Bluetooth X"
    metadata := [{ param1 := [{ name := "Foo", constant := some 1 },
                              { name := "Bar", range := some ⟨0, 4⟩ }]
                   param2 := [] }] }

/-- C4 counterexample: `exC4` is bluetooth-eligible, no metadata set yields
any label overlap, `param1` is the only parameter with constants and
`param2` has no descriptors at all — yet no role mapping is produced,
because the code additionally requires the constant parameter to carry no
usage/layer/range descriptor and `param1` also carries a range. -/
theorem bluetooth_claim_counterexample :
    btEligible exC4 = true
    ∧ (∀ t ∈ exC4.metadata, btScore t.param1 = 0 ∧ btScore t.param2 = 0)
    ∧ (∃ d ∈ flatP1 exC4, d.constant.isSome = true)
    ∧ flatP2 exC4 = []
    ∧ inferBluetoothParamOrder exC4 = none := by
  refine ⟨rfl, by decide, ⟨{ name := "Foo", constant := some 1 }, by decide, rfl⟩, rfl, rfl⟩

/-- C4 (amended): for a bluetooth-eligible behavior, the first metadata set
with any action-label overlap (case/whitespace-insensitive exact match)
decides the role mapping: the parameter with the larger overlap count in
that set (ties to `param1`) is the action parameter and the opposite
parameter is the profile parameter exactly when it declares any descriptor
in that set; with no overlap anywhere the mapping falls back to the sole
constant parameter, which requires one parameter to have a constant
descriptor, the other parameter to have no descriptors at all, and the
constant parameter itself to carry no usage/layer-id/range descriptor;
otherwise no role mapping is produced. -/
theorem bluetooth_role_inference (b : Behavior) (helig : btEligible b = true) :
    (∀ pre s post, b.metadata = pre ++ s :: post →
      (∀ t ∈ pre, btScore t.param1 = 0 ∧ btScore t.param2 = 0) →
      ¬(btScore s.param1 = 0 ∧ btScore s.param2 = 0) →
      inferBluetoothParamOrder b = some ⟨btActionOf s, btProfileOf s⟩)
    ∧ ((∀ t ∈ b.metadata, btScore t.param1 = 0 ∧ btScore t.param2 = 0) →
      inferBluetoothParamOrder b = (inferSingleConstantParam b).map fun p => ⟨p, none⟩)
    ∧ (inferSingleConstantParam b = some .param1 ↔
        (∃ d ∈ flatP1 b, d.constant.isSome = true) ∧ flatP2 b = []
          ∧ ∀ d ∈ flatP1 b, d.hidUsage = none ∧ d.layerId = none ∧ d.range = none)
    ∧ (inferSingleConstantParam b = some .param2 ↔
        (∃ d ∈ flatP2 b, d.constant.isSome = true) ∧ flatP1 b = []
          ∧ ∀ d ∈ flatP2 b, d.hidUsage = none ∧ d.layerId = none ∧ d.range = none) := by
  have c1 : ((flatP1 b).any fun p => p.constant.isSome) = true
      ↔ ∃ d ∈ flatP1 b, d.constant.isSome = true := List.any_eq_true
  have c2 : ((flatP2 b).any fun p => p.constant.isSome) = true
      ↔ ∃ d ∈ flatP2 b, d.constant.isSome = true := List.any_eq_true
  have o1 : ((flatP1 b).any fun p => p.hidUsage.isSome || p.layerId.isSome || p.range.isSome) = false
      ↔ ∀ d ∈ flatP1 b, d.hidUsage = none ∧ d.layerId = none ∧ d.range = none := by
    simp [List.any_eq_true, Option.isSome_iff_ne_none, and_assoc]
  have o2 : ((flatP2 b).any fun p => p.hidUsage.isSome || p.layerId.isSome || p.range.isSome) = false
      ↔ ∀ d ∈ flatP2 b, d.hidUsage = none ∧ d.layerId = none ∧ d.range = none := by
    simp [List.any_eq_true, Option.isSome_iff_ne_none, and_assoc]
  have e1 : (flatP1 b).isEmpty = true ↔ flatP1 b = [] := by simp
  have e2 : (flatP2 b).isEmpty = true ↔ flatP2 b = [] := by simp
  refine ⟨?_, ?_, ?_, ?_⟩
  · intro pre s post hmeta hpre hs
    unfold inferBluetoothParamOrder
    rw [hmeta,
      findSome?_append_none fun t ht => (btOrderOfSet_eq_none_iff t).2 (hpre t ht),
      List.findSome?_cons, btOrderOfSet_explicit s hs]
  · intro hall
    unfold inferBluetoothParamOrder
    rw [List.findSome?_eq_none_iff.2 fun t ht => (btOrderOfSet_eq_none_iff t).2 (hall t ht)]
  · unfold inferSingleConstantParam
    simp only []
    split_ifs with hA hB
    · simp only [Bool.and_eq_true, Bool.not_eq_true'] at hA
      obtain ⟨⟨⟨x1, _⟩, x3⟩, x4⟩ := hA
      rw [Bool.or_eq_false_iff] at x4
      exact ⟨fun _ => ⟨c1.1 x1, e2.1 x3, o1.1 x4.1⟩, fun _ => rfl⟩
    · simp only [Bool.and_eq_true, Bool.not_eq_true'] at hB
      obtain ⟨⟨⟨_, _⟩, x3⟩, _⟩ := hB
      constructor
      · intro h
        exact absurd h (by simp)
      · rintro ⟨⟨d, hd, _⟩, _, _⟩
        rw [e1.1 x3] at hd
        exact absurd hd (List.not_mem_nil d)
    · constructor
      · intro h
        exact absurd h (by simp)
      · rintro ⟨hex, hP2, hall1⟩
        have b1 : ((flatP1 b).any fun p => p.constant.isSome) = true := c1.2 hex
        have b3 : (flatP2 b).isEmpty = true := e2.2 hP2
        have b2 : ((flatP2 b).any fun p => p.constant.isSome) = false := by
          rw [hP2]
          rfl
        have b4 : ((flatP1 b).any fun p =>
            p.hidUsage.isSome || p.layerId.isSome || p.range.isSome) = false := o1.2 hall1
        exact absurd (by simp [b1, b2, b3, b4]) hA
  · unfold inferSingleConstantParam
    simp only []
    split_ifs with hA hB
    · simp only [Bool.and_eq_true, Bool.not_eq_true'] at hA
      obtain ⟨⟨⟨x1, _⟩, _⟩, _⟩ := hA
      constructor
      · intro h
        exact absurd h (by simp)
      · rintro ⟨_, hP1, _⟩
        obtain ⟨d, hd, _⟩ := c1.1 x1
        rw [hP1] at hd
        exact absurd hd (List.not_mem_nil d)
    · simp only [Bool.and_eq_true, Bool.not_eq_true'] at hB
      obtain ⟨⟨⟨x1, _⟩, x3⟩, x4⟩ := hB
      rw [Bool.or_eq_false_iff] at x4
      exact ⟨fun _ => ⟨c2.1 x1, e1.1 x3, o2.1 x4.1⟩, fun _ => rfl⟩
    · constructor
      · intro h
        exact absurd h (by simp)
      · rintro ⟨hex, hP1, hall2⟩
        have b1 : ((flatP2 b).any fun p => p.constant.isSome) = true := c2.2 hex
        have b3 : (flatP1 b).isEmpty = true := e1.2 hP1
        have b2 : ((flatP1 b).any fun p => p.constant.isSome) = false := by
          rw [hP1]
          rfl
        have b4 : ((flatP2 b).any fun p =>
            p.hidUsage.isSome || p.layerId.isSome || p.range.isSome) = false := o2.2 hall2
        exact absurd (by simp [b1, b2, b3, b4]) hB

/-- The six canonical action constants on one parameter. -/
def btSixConsts : List ParamDesc :=
  [{ name := "Next Profile", constant := some 0 },
   { name := "Previous Profile", constant := some 1 },
   { name := "Clear All Profiles", constant := some 2 },
   { name := "Clear Selected Profile", constant := some 3 },
   { name := "Select Profile", constant := some 4 },
   { name := "Disconnect Profile", constant := some 5 }]

/-- The metadata set with the six canonical actions on `param1` and an
empty `param2`. -/
def bt6Set : ParamSet := { param1 := btSixConsts, param2 := [] }

/-- A bluetooth behavior with the six canonical actions on `param1` and an
empty `param2`. -/
def bt6 : Behavior := { id := 15, displayName := "Bluetooth", metadata := [bt6Set] }

/-- C4 witness: the six-action behavior resolves to action on `param1` with
no profile parameter. -/
theorem bluetooth_role_inference_witness :
    btEligible bt6 = true
    ∧ bt6.metadata = [] ++ bt6Set :: []
    ∧ (∀ t ∈ ([] : List ParamSet), btScore t.param1 = 0 ∧ btScore t.param2 = 0)
    ∧ ¬(btScore bt6Set.param1 = 0 ∧ btScore bt6Set.param2 = 0)
    ∧ inferBluetoothParamOrder bt6 = some ⟨btActionOf bt6Set, btProfileOf bt6Set⟩ :=
  ⟨rfl, rfl, by simp, by decide,
    (bluetooth_role_inference bt6 rfl).1 [] bt6Set [] rfl (by simp) (by decide)⟩

/-! ### Bluetooth encoding (C5) -/

theorem btOrderOfSet_profile_shape (s : ParamSet) (o : BtOrder)
    (h : btOrderOfSet s = some o) :
    o.profileParam = none ∨ o.profileParam = some o.actionParam.other := by
  unfold btOrderOfSet at h
  simp only [] at h
  split_ifs at h <;> first
    | exact Option.noConfusion h
    | exact h.elim
    | (injection h with h'
       rw [← h']
       simp [Param.other])

theorem inferBluetoothParamOrder_profile_shape (b : Behavior) (o : BtOrder)
    (h : inferBluetoothParamOrder b = some o) :
    o.profileParam = none ∨ o.profileParam = some o.actionParam.other := by
  unfold inferBluetoothParamOrder at h
  cases hf : b.metadata.findSome? btOrderOfSet with
  | some o' =>
    rw [hf] at h
    have ho : o' = o := by
      injection h
    subst ho
    exact findSome?_imp btOrderOfSet_profile_shape hf
  | none =>
    rw [hf] at h
    cases hp : inferSingleConstantParam b with
    | none =>
      rw [hp] at h
      exact Option.noConfusion h
    | some p =>
      rw [hp] at h
      have : BtOrder.mk p none = o := by
        injection h
      rw [← this]
      left
      rfl

/-- The six-action behavior with a bounded profile range on `param2`. -/
def exC5 : Behavior :=
  { id := 16, displayName := "Bluetooth"
    metadata := [{ param1 := btSixConsts
                   param2 := [{ name := "Profile", range := some ⟨0, 4⟩ }] }] }

/-- C5 counterexample: `exC5` declares profile values (its inferred mapping
has a profile parameter), yet encoding the action Next Profile — which does
not name-match Select Profile / Clear Selected Profile — with chosen
profile 3 sets the profile parameter to 0, not 3, contradicting the
claim's "or the behavior declares any profile values at all" disjunct. -/
theorem bluetooth_encode_claim_counterexample :
    inferBluetoothParamOrder exC5 = some ⟨.param1, some .param2⟩
    ∧ encodeBluetoothClick exC5.id ⟨.param1, some .param2⟩ 0 (some "Next Profile") 3
        = ⟨exC5.id, 0, 0⟩
    ∧ (Binding.mk exC5.id 0 0 ≠ Binding.mk exC5.id 0 3) :=
  ⟨rfl, rfl, by decide⟩

/-- C5 (amended): for a bluetooth-eligible behavior with an inferred role
mapping, encoding a chosen action places the action constant into the
action parameter, and the opposite (resolved profile) parameter receives
the chosen profile value exactly when the chosen action name-matches
"Select Profile" or "Clear Selected Profile", and 0 otherwise — regardless
of whether the behavior declares profile values.  In particular, with the
six canonical actions on `param1` and `param2` empty, selecting Select
Profile with profile 3 encodes to `{param1: SelectProfile-constant,
param2: 3}` and selecting Clear All Profiles encodes `param2` to 0. -/
theorem bluetooth_encode_spec (b : Behavior) (order : BtOrder)
    (value profile : Nat) (name : Option String)
    (horder : inferBluetoothParamOrder b = some order) :
    ((encodeBluetoothClick b.id order value name profile).behaviorId = b.id
      ∧ (encodeBluetoothClick b.id order value name profile).get order.actionParam = value
      ∧ (encodeBluetoothClick b.id order value name profile).get order.actionParam.other
          = (if btWantsProfile name then profile else 0))
    ∧ (inferBluetoothParamOrder bt6 = some ⟨.param1, none⟩
      ∧ encodeBluetoothClick bt6.id ⟨.param1, none⟩ 4 (some "Select Profile") 3
          = ⟨bt6.id, 4, 3⟩
      ∧ ∀ p, encodeBluetoothClick bt6.id ⟨.param1, none⟩ 2 (some "Clear All Profiles") p
          = ⟨bt6.id, 2, 0⟩) := by
  have hrp : btResolvedProfileParam order = order.actionParam.other := by
    rcases inferBluetoothParamOrder_profile_shape b order horder with h | h <;>
      simp [btResolvedProfileParam, h]
  refine ⟨⟨rfl, ?_, ?_⟩, rfl, rfl, fun p => ?_⟩
  · cases ha : order.actionParam <;>
      simp [encodeBluetoothClick, Binding.get, ha]
  · cases ha : order.actionParam <;>
      rw [ha] at hrp <;>
      cases hw : btWantsProfile name <;>
        simp [encodeBluetoothClick, Binding.get, ha, hrp, hw, Param.other]
  · cases hw : btWantsProfile (some "Clear All Profiles") with
    | false => simp [encodeBluetoothClick, hw, btResolvedProfileParam, Param.other]
    | true => exact absurd hw (by decide)

/-- C5 witness: encode Disconnect Profile (no profile wanted) on `exC5`. -/
theorem bluetooth_encode_spec_witness :
    inferBluetoothParamOrder exC5 = some ⟨.param1, some .param2⟩
    ∧ ((encodeBluetoothClick exC5.id ⟨.param1, some .param2⟩ 5 (some "Disconnect Profile") 2).behaviorId = exC5.id
      ∧ (encodeBluetoothClick exC5.id ⟨.param1, some .param2⟩ 5 (some "Disconnect Profile") 2).get
          (BtOrder.mk .param1 (some .param2)).actionParam = 5
      ∧ (encodeBluetoothClick exC5.id ⟨.param1, some .param2⟩ 5 (some "Disconnect Profile") 2).get
          (BtOrder.mk .param1 (some .param2)).actionParam.other
          = (if btWantsProfile (some "Disconnect Profile") then 2 else 0)) :=
  ⟨rfl, (bluetooth_encode_spec exC5 ⟨.param1, some .param2⟩ 5 2
    (some "Disconnect Profile") rfl).1⟩

/-! ### Keymap import characterization (C8) -/

theorem applyEdits_append (km : Keymap) (a b : List PlannedEdit) :
    applyEdits km (a ++ b) = applyEdits (applyEdits km a) b :=
  List.foldl_append ..

theorem takeWhile_append_of_all {p : α → Bool} {l1 : List α} (l2 : List α)
    (h : ∀ x ∈ l1, p x = true) :
    (l1 ++ l2).takeWhile p = l1 ++ l2.takeWhile p := by
  induction l1 with
  | nil => rfl
  | cons a as ih =>
    rw [List.cons_append, List.takeWhile_cons_of_pos (h a (by simp)),
      ih fun x hx => h x (by simp [hx]), List.cons_append]

theorem dropWhile_append_of_all {p : α → Bool} {l1 : List α} (l2 : List α)
    (h : ∀ x ∈ l1, p x = true) :
    (l1 ++ l2).dropWhile p = l2.dropWhile p := by
  induction l1 with
  | nil => rfl
  | cons a as ih =>
    rw [List.cons_append, List.dropWhile_cons_of_pos (h a (by simp)),
      ih fun x hx => h x (by simp [hx])]

theorem takeWhile_append_of_stop {p : α → Bool} {l1 : List α} (l2 : List α)
    (h : ¬∀ x ∈ l1, p x = true) :
    (l1 ++ l2).takeWhile p = l1.takeWhile p
    ∧ (l1 ++ l2).dropWhile p = l1.dropWhile p ++ l2 := by
  induction l1 with
  | nil => exact absurd (by simp) h
  | cons a as ih =>
    by_cases ha : p a = true
    · have has : ¬∀ x ∈ as, p x = true := by
        intro hall
        exact h fun x hx => by
          rcases List.mem_cons.1 hx with hx | hx
          · rw [hx]
            exact ha
          · exact hall x hx
      obtain ⟨ht, hd⟩ := ih has
      rw [List.cons_append, List.takeWhile_cons_of_pos ha, List.dropWhile_cons_of_pos ha,
        List.takeWhile_cons_of_pos ha, List.dropWhile_cons_of_pos ha, ht, hd]
      exact ⟨rfl, rfl⟩
    · rw [List.cons_append, List.takeWhile_cons_of_neg (by simpa using ha),
        List.dropWhile_cons_of_neg (by simpa using ha),
        List.takeWhile_cons_of_neg (by simpa using ha),
        List.dropWhile_cons_of_neg (by simpa using ha), List.cons_append]
      exact ⟨rfl, rfl⟩

theorem importKeysGo_spec (dev : DevVerdict) (li lid : Nat) :
    ∀ (curr : List Binding) (next : List (Option Binding)) (k : Nat) (km : Keymap),
    importKeysGo dev li lid curr next k km =
      (applyEdits km ((planKeys li lid curr next k).takeWhile (editOk dev)),
       ((planKeys li lid curr next k).takeWhile (editOk dev)).map PlannedEdit.toReq
         ++ (((planKeys li lid curr next k).dropWhile (editOk dev)).take 1).map PlannedEdit.toReq,
       ((planKeys li lid curr next k).dropWhile (editOk dev)).isEmpty) := by
  intro curr
  induction curr with
  | nil =>
    intro next k km
    simp [importKeysGo, planKeys, applyEdits]
  | cons ob obs ih =>
    intro next k km
    cases next with
    | nil => simp [importKeysGo, planKeys, applyEdits]
    | cons nb nbs =>
      cases nb with
      | none =>
        rw [show importKeysGo dev li lid (ob :: obs) (none :: nbs) k km
            = importKeysGo dev li lid obs nbs (k + 1) km from rfl,
          show planKeys li lid (ob :: obs) (none :: nbs) k
            = planKeys li lid obs nbs (k + 1) from rfl]
        exact ih nbs (k + 1) km
      | some b =>
        by_cases hob : ob = b
        · rw [show importKeysGo dev li lid (ob :: obs) (some b :: nbs) k km
              = if ob = b then importKeysGo dev li lid obs nbs (k + 1) km
                else if dev lid k b then
                  let r := importKeysGo dev li lid obs nbs (k + 1) (setBindingAt km li k b)
                  (r.1, ⟨lid, k, b⟩ :: r.2.1, r.2.2)
                else (km, [⟨lid, k, b⟩], false) from rfl,
            show planKeys li lid (ob :: obs) (some b :: nbs) k
              = if ob = b then planKeys li lid obs nbs (k + 1)
                else ⟨li, lid, k, b⟩ :: planKeys li lid obs nbs (k + 1) from rfl,
            if_pos hob, if_pos hob]
          exact ih nbs (k + 1) km
        · rw [show importKeysGo dev li lid (ob :: obs) (some b :: nbs) k km
              = if ob = b then importKeysGo dev li lid obs nbs (k + 1) km
                else if dev lid k b then
                  let r := importKeysGo dev li lid obs nbs (k + 1) (setBindingAt km li k b)
                  (r.1, ⟨lid, k, b⟩ :: r.2.1, r.2.2)
                else (km, [⟨lid, k, b⟩], false) from rfl,
            show planKeys li lid (ob :: obs) (some b :: nbs) k
              = if ob = b then planKeys li lid obs nbs (k + 1)
                else ⟨li, lid, k, b⟩ :: planKeys li lid obs nbs (k + 1) from rfl,
            if_neg hob, if_neg hob]
          by_cases hdev : dev lid k b = true
          · have hek : editOk dev ⟨li, lid, k, b⟩ = true := hdev
            rw [if_pos hdev]
            simp only []
            rw [ih nbs (k + 1) (setBindingAt km li k b),
              List.takeWhile_cons_of_pos hek, List.dropWhile_cons_of_pos hek]
            rfl
          · have hek : editOk dev ⟨li, lid, k, b⟩ = false := by
              rw [Bool.not_eq_true] at hdev
              exact hdev
            rw [if_neg hdev,
              List.takeWhile_cons_of_neg (by simp [hek]),
              List.dropWhile_cons_of_neg (by simp [hek])]
            rfl

theorem importLayersGo_spec (dev : DevVerdict) :
    ∀ (ols : List Layer) (ils : List (Option (List (Option Binding))))
      (l : Nat) (km : Keymap),
    importLayersGo dev ols ils l km =
      (applyEdits km ((planLayers ols ils l).takeWhile (editOk dev)),
       ((planLayers ols ils l).takeWhile (editOk dev)).map PlannedEdit.toReq
         ++ (((planLayers ols ils l).dropWhile (editOk dev)).take 1).map PlannedEdit.toReq,
       ((planLayers ols ils l).dropWhile (editOk dev)).isEmpty) := by
  intro ols
  induction ols with
  | nil =>
    intro ils l km
    simp [importLayersGo, planLayers, applyEdits]
  | cons ol ols ih =>
    intro ils l km
    cases ils with
    | nil => simp [importLayersGo, planLayers, applyEdits]
    | cons il ils =>
      cases il with
      | none =>
        rw [show importLayersGo dev (ol :: ols) (none :: ils) l km
            = importLayersGo dev ols ils (l + 1) km from rfl,
          show planLayers (ol :: ols) (none :: ils) l = planLayers ols ils (l + 1) from rfl]
        exact ih ils (l + 1) km
      | some nbs =>
        rw [show importLayersGo dev (ol :: ols) (some nbs :: ils) l km
            = (let r := importKeysGo dev l ol.id ol.bindings nbs 0 km
               if r.2.2 then
                 let r2 := importLayersGo dev ols ils (l + 1) r.1
                 (r2.1, r.2.1 ++ r2.2.1, r2.2.2)
               else (r.1, r.2.1, false)) from rfl,
          show planLayers (ol :: ols) (some nbs :: ils) l
            = planKeys l ol.id ol.bindings nbs 0 ++ planLayers ols ils (l + 1) from rfl]
        simp only []
        rw [importKeysGo_spec dev l ol.id ol.bindings nbs 0 km]
        by_cases hall : ∀ x ∈ planKeys l ol.id ol.bindings nbs 0, editOk dev x = true
        · have hdw : (planKeys l ol.id ol.bindings nbs 0).dropWhile (editOk dev) = [] :=
            List.dropWhile_eq_nil_iff.2 hall
          have htw : (planKeys l ol.id ol.bindings nbs 0).takeWhile (editOk dev)
              = planKeys l ol.id ol.bindings nbs 0 :=
            List.takeWhile_eq_self_iff.2 hall
          rw [if_pos (by rw [hdw]; rfl)]
          simp only []
          rw [ih ils (l + 1) _,
            takeWhile_append_of_all _ hall, dropWhile_append_of_all _ hall,
            applyEdits_append, htw, hdw]
          simp [List.map_append, List.append_assoc]
        · obtain ⟨htw, hdw⟩ := takeWhile_append_of_stop (planLayers ols ils (l + 1)) hall
          have hne : (planKeys l ol.id ol.bindings nbs 0).dropWhile (editOk dev) ≠ [] := by
            intro hnil
            exact hall (List.dropWhile_eq_nil_iff.1 hnil)
          rw [if_neg (by
            intro habs
            exact hne (by
              rcases hd : (planKeys l ol.id ol.bindings nbs 0).dropWhile (editOk dev) with _ | ⟨e, tl⟩
              · rfl
              · rw [hd] at habs
                exact absurd habs (by simp)))]
          rw [htw, hdw]
          rcases hd : (planKeys l ol.id ol.bindings nbs 0).dropWhile (editOk dev) with _ | ⟨e, tl⟩
          · exact absurd hd hne
          · simp [hd]

theorem planKeys_mem (li lid : Nat) :
    ∀ (curr : List Binding) (next : List (Option Binding)) (k : Nat) (e : PlannedEdit),
    e ∈ planKeys li lid curr next k →
    e.layerIndex = li ∧ e.layerId = lid
    ∧ ∃ j, e.keyPosition = k + j ∧ j < min curr.length next.length
      ∧ curr[j]? ≠ some e.binding ∧ next[j]? = some (some e.binding) := by
  intro curr
  induction curr with
  | nil =>
    intro next k e he
    simp [planKeys] at he
  | cons ob obs ih =>
    intro next k e he
    cases next with
    | nil => simp [planKeys] at he
    | cons nb nbs =>
      cases nb with
      | none =>
        rw [show planKeys li lid (ob :: obs) (none :: nbs) k
            = planKeys li lid obs nbs (k + 1) from rfl] at he
        obtain ⟨h1, h2, j, hk, hlt, hdiff, himp⟩ := ih nbs (k + 1) e he
        exact ⟨h1, h2, j + 1, by omega, by simp; omega, by simpa using hdiff,
          by simpa using himp⟩
      | some b =>
        rw [show planKeys li lid (ob :: obs) (some b :: nbs) k
            = if ob = b then planKeys li lid obs nbs (k + 1)
              else ⟨li, lid, k, b⟩ :: planKeys li lid obs nbs (k + 1) from rfl] at he
        by_cases hob : ob = b
        · rw [if_pos hob] at he
          obtain ⟨h1, h2, j, hk, hlt, hdiff, himp⟩ := ih nbs (k + 1) e he
          exact ⟨h1, h2, j + 1, by omega, by simp; omega, by simpa using hdiff,
            by simpa using himp⟩
        · rw [if_neg hob] at he
          rcases List.mem_cons.1 he with he | he
          · subst he
            refine ⟨rfl, rfl, 0, by simp, by simp [Nat.lt_min], ?_, by simp⟩
            simpa using fun hc => hob hc
          · obtain ⟨h1, h2, j, hk, hlt, hdiff, himp⟩ := ih nbs (k + 1) e he
            exact ⟨h1, h2, j + 1, by omega, by simp; omega, by simpa using hdiff,
              by simpa using himp⟩

theorem planLayers_mem :
    ∀ (ols : List Layer) (ils : List (Option (List (Option Binding))))
      (l : Nat) (e : PlannedEdit),
    e ∈ planLayers ols ils l →
    ∃ j, e.layerIndex = l + j ∧ j < min ols.length ils.length
      ∧ ∃ ol, ols[j]? = some ol ∧ ol.id = e.layerId
      ∧ ∃ nbs, ils[j]? = some (some nbs)
        ∧ e.keyPosition < min ol.bindings.length nbs.length
        ∧ ol.bindings[e.keyPosition]? ≠ some e.binding
        ∧ nbs[e.keyPosition]? = some (some e.binding) := by
  intro ols
  induction ols with
  | nil =>
    intro ils l e he
    simp [planLayers] at he
  | cons ol ols ih =>
    intro ils l e he
    cases ils with
    | nil => simp [planLayers] at he
    | cons il ils =>
      cases il with
      | none =>
        rw [show planLayers (ol :: ols) (none :: ils) l
            = planLayers ols ils (l + 1) from rfl] at he
        obtain ⟨j, hl, hlt, ol', hol, holid, nbs, hnbs, rest⟩ := ih ils (l + 1) e he
        exact ⟨j + 1, by omega, by simp; omega, ol', by simpa using hol, holid,
          nbs, by simpa using hnbs, rest⟩
      | some nbs0 =>
        rw [show planLayers (ol :: ols) (some nbs0 :: ils) l
            = planKeys l ol.id ol.bindings nbs0 0 ++ planLayers ols ils (l + 1) from rfl] at he
        rcases List.mem_append.1 he with he | he
        · obtain ⟨h1, h2, j, hk, hlt, hdiff, himp⟩ := planKeys_mem l ol.id _ _ 0 e he
          rw [Nat.zero_add] at hk
          subst hk
          exact ⟨0, by omega, by simp [Nat.lt_min], ol, by simp, h2.symm, nbs0, by simp,
            hlt, hdiff, himp⟩
        · obtain ⟨j, hl, hlt, ol', hol, holid, nbs, hnbs, rest⟩ := ih ils (l + 1) e he
          exact ⟨j + 1, by omega, by simp; omega, ol', by simpa using hol, holid,
            nbs, by simpa using hnbs, rest⟩

/-- C8: `importKeymap`, characterized against the specification-side plan.
The result is exactly: the replica with the accepted prefix of the plan
applied, the requests for that prefix plus (on rejection) the single
rejected request, and success exactly when no planned edit was rejected —
so equal bindings trigger no request, a rejection stops the import with all
previously confirmed edits in place and everything after untouched, and
every planned edit lies inside the overlapping layer/key prefix, differs
from the current binding, and matches the imported document. -/
theorem importKeymap_spec (km : Keymap)
    (imported : List (Option (List (Option Binding)))) (dev : DevVerdict) :
    (importKeymap km imported dev =
      (applyEdits km ((importPlan km imported).takeWhile (editOk dev)),
       ((importPlan km imported).takeWhile (editOk dev)).map PlannedEdit.toReq
         ++ (((importPlan km imported).dropWhile (editOk dev)).take 1).map PlannedEdit.toReq,
       ((importPlan km imported).dropWhile (editOk dev)).isEmpty))
    ∧ (∀ e ∈ importPlan km imported,
        e.layerIndex < min km.layers.length imported.length
        ∧ ∃ ol, km.layers[e.layerIndex]? = some ol ∧ ol.id = e.layerId
          ∧ ∃ nbs, imported[e.layerIndex]? = some (some nbs)
            ∧ e.keyPosition < min ol.bindings.length nbs.length
            ∧ ol.bindings[e.keyPosition]? ≠ some e.binding
            ∧ nbs[e.keyPosition]? = some (some e.binding)) := by
  constructor
  · exact importLayersGo_spec dev km.layers imported 0 km
  · intro e he
    obtain ⟨j, hj, hjlt, ol, hol, holid, nbs, hnbs, hkp, hdiff, himp⟩ :=
      planLayers_mem km.layers imported 0 e he
    rw [Nat.zero_add] at hj
    subst hj
    exact ⟨hjlt, ol, hol, holid, nbs, hnbs, hkp, hdiff, himp⟩

/-- A three-key, two-layer device keymap for the import witness. -/
def impKm : Keymap :=
  { layers :=
      [{ id := 0, name := "L0", bindings := [⟨1, 0, 0⟩, ⟨1, 1, 0⟩, ⟨1, 2, 0⟩] },
       { id := 1, name := "L1", bindings := [⟨1, 3, 0⟩] }]
    availableLayers := 1 }

/-- An imported document: first binding equal to the current one, the rest
differing. -/
def impDoc : List (Option (List (Option Binding))) :=
  [some [some ⟨1, 0, 0⟩, some ⟨2, 5, 0⟩, some ⟨2, 6, 0⟩],
   some [some ⟨2, 7, 0⟩]]

/-- The second planned edit of importing `impDoc` into `impKm`. -/
def impEdit : PlannedEdit := ⟨0, 0, 1, ⟨2, 5, 0⟩⟩

/-- A device that rejects the set-binding request at layer id 0, key 2. -/
def impDev : DevVerdict := fun lid k _ => !(lid == 0 && k == 2)

/-- C8 witness: the plan of importing `impDoc` into `impKm` contains the
differing binding at layer 0 key 1, and that edit satisfies the overlap,
difference and document-match properties. -/
theorem importKeymap_spec_witness :
    impEdit ∈ importPlan impKm impDoc
    ∧ (impEdit.layerIndex < min impKm.layers.length impDoc.length
      ∧ ∃ ol, impKm.layers[impEdit.layerIndex]? = some ol ∧ ol.id = impEdit.layerId
        ∧ ∃ nbs, impDoc[impEdit.layerIndex]? = some (some nbs)
          ∧ impEdit.keyPosition < min ol.bindings.length nbs.length
          ∧ ol.bindings[impEdit.keyPosition]? ≠ some impEdit.binding
          ∧ nbs[impEdit.keyPosition]? = some (some impEdit.binding)) :=
  ⟨by decide, (importKeymap_spec impKm impDoc impDev).2 impEdit (by decide)⟩

end ZmkStudio
